import Mathlib

/-!
Verification of the `fastapi-cached` precomputation cache engine and its
example application (`examples/main.py`).

Part I embeds the example's handler `get_sales_report` and its two parameter
enums directly from the source. Part II embeds the cache engine
(domain registry, key codec, cache store, precomputation scheduler,
interception wrapper, persistence); the engine package `fastapicachex` is not
part of the visible sources, so those definitions are modelled from the spec
and marked as such in their doc comments.
-/

/- ## Part I: the example (from `src/examples/main.py`) -/

deriving instance DecidableEq for Except

/-- One decimal digit, as Python's `int()` accepts inside a numeral. -/
def decDigit? (c : Char) : Option Nat :=
  if '0' ≤ c ∧ c ≤ '9' then some (c.toNat - '0'.toNat) else none

/-- Accumulate decimal digits left to right; `none` on any non-digit. -/
def decNatAux : List Char → Nat → Option Nat
  | [], acc => some acc
  | c :: cs, acc =>
    match decDigit? c with
    | some d => decNatAux cs (acc * 10 + d)
    | none => none

/-- Python's `int(str)` builtin on a decimal numeral with optional leading
minus sign; `none` embeds the `ValueError` it raises on malformed input. -/
def pyInt? (s : String) : Option Int :=
  match s.data with
  | [] => none
  | '-' :: cs =>
    if cs.isEmpty then none else (decNatAux cs 0).map (fun n => -(n : Int))
  | cs => (decNatAux cs 0).map (fun n => (n : Int))

/-- The `SubregionEnum` of `examples/main.py`: `EMEA`, `APAC`, `AMER`. -/
inductive SubregionEnum where
  | EMEA
  | APAC
  | AMER
deriving DecidableEq, Repr

/-- The string payload of each `SubregionEnum` member (`str, Enum` values). -/
def SubregionEnum.value : SubregionEnum → String
  | .EMEA => "EMEA"
  | .APAC => "APAC"
  | .AMER => "AMER"

/-- The `StoreIDEnum` of `examples/main.py`: `"101"`, `"202"`, `"303"`,
`"404"`, `"ONLINE"`. -/
inductive StoreIDEnum where
  | STORE_101
  | STORE_202
  | STORE_303
  | STORE_404
  | ONLINE
deriving DecidableEq, Repr

/-- The string payload of each `StoreIDEnum` member. -/
def StoreIDEnum.value : StoreIDEnum → String
  | .STORE_101 => "101"
  | .STORE_202 => "202"
  | .STORE_303 => "303"
  | .STORE_404 => "404"
  | .ONLINE => "ONLINE"

/-- The `Report` pydantic model of the example; its `data` dict carries the
single key `revenue`, embedded here as an `Int` field. -/
structure Report where
  subregion : SubregionEnum
  store_id : StoreIDEnum
  revenue : Int
deriving DecidableEq, Repr

/-- The body of `get_sales_report` (the `print` and `asyncio.sleep` are
effect-free for the result). If `store_id == StoreIDEnum.ONLINE` the revenue
is `len(subregion.value) * 5000`, otherwise `int(store_id.value) * 1000`;
`int(...)` can raise `ValueError`, embedded as the `Except.error` branch. -/
def get_sales_report (subregion : SubregionEnum) (store_id : StoreIDEnum) :
    Except String Report :=
  if store_id = StoreIDEnum.ONLINE then
    .ok ⟨subregion, store_id, (subregion.value.length : Int) * 5000⟩
  else
    match pyInt? store_id.value with
    | some n => .ok ⟨subregion, store_id, n * 1000⟩
    | none => .error "ValueError"

/-- The revenue of a successful report, if any. -/
def reportRevenue (r : Except String Report) : Option Int :=
  match r with
  | .ok rep => some rep.revenue
  | .error _ => none

/-- C9: for every combination whose `store_id` is not `ONLINE`, the revenue
computed by `get_sales_report` equals `int(store_id) * 1000`, and it is
independent of the subregion: two calls differing only in the subregion
yield the same revenue value. -/
theorem c9_nonOnline_revenue (sr₁ sr₂ : SubregionEnum) (st : StoreIDEnum)
    (h : st ≠ StoreIDEnum.ONLINE) :
    (∃ n : Int, pyInt? st.value = some n ∧
      get_sales_report sr₁ st = .ok ⟨sr₁, st, n * 1000⟩ ∧
      get_sales_report sr₂ st = .ok ⟨sr₂, st, n * 1000⟩) ∧
    reportRevenue (get_sales_report sr₁ st) =
      reportRevenue (get_sales_report sr₂ st) := by
  cases st with
  | ONLINE => exact absurd rfl h
  | STORE_101 => cases sr₁ <;> cases sr₂ <;> exact ⟨⟨101, by decide⟩, by decide⟩
  | STORE_202 => cases sr₁ <;> cases sr₂ <;> exact ⟨⟨202, by decide⟩, by decide⟩
  | STORE_303 => cases sr₁ <;> cases sr₂ <;> exact ⟨⟨303, by decide⟩, by decide⟩
  | STORE_404 => cases sr₁ <;> cases sr₂ <;> exact ⟨⟨404, by decide⟩, by decide⟩

/-- Witness for C9 at the concrete input `(EMEA, APAC, "101")`. -/
theorem c9_nonOnline_revenue_witness :
    (∃ n : Int, pyInt? (StoreIDEnum.STORE_101).value = some n ∧
      get_sales_report .EMEA .STORE_101 = .ok ⟨.EMEA, .STORE_101, n * 1000⟩ ∧
      get_sales_report .APAC .STORE_101 = .ok ⟨.APAC, .STORE_101, n * 1000⟩) ∧
    reportRevenue (get_sales_report .EMEA .STORE_101) =
      reportRevenue (get_sales_report .APAC .STORE_101) :=
  c9_nonOnline_revenue .EMEA .APAC .STORE_101 (by decide)

/-- C10: for every subregion in the declared domain, the revenue for the
`ONLINE` store equals `20000`, because every declared subregion string has
length 4 and the revenue is `len(subregion) * 5000`. -/
theorem c10_online_revenue_all_subregions (sr : SubregionEnum) :
    sr.value.length = 4 ∧
    get_sales_report sr .ONLINE =
      .ok ⟨sr, .ONLINE, (sr.value.length : Int) * 5000⟩ ∧
    reportRevenue (get_sales_report sr .ONLINE) = some 20000 := by
  cases sr <;> exact ⟨by decide, by decide, by decide⟩

/- ## Part II: the engine (`fastapicachex`, modelled from the spec) -/

/-- Modelled from the spec: a concrete parameter `Value` is its serialized
string form (§3 CacheKey: values are value-serialized; §4.2: encoding is
stable under serialization round-trip). -/
abbrev Value := String

/-- Modelled from the spec (§3): an ordered tuple of one concrete value per
declared parameter, position matching declaration order. -/
abbrev Combination := List Value

/-- Modelled from the spec (§3 ParameterDomain): a parameter name together
with the finite ordered sequence of its legal values. -/
structure ParameterDomain where
  name : String
  values : List Value
deriving DecidableEq, Repr

/-- Modelled from the spec (§3 CacheKey, §4.2): the canonical key is
determined by the ordered list of `(name, value)` pairs, and the canonical
string encoding of that list is injective by contract, so the key is
represented by the pair list itself. -/
abbrev CacheKey := List (String × Value)

/-- Modelled from the spec (§4.2 Key Codec): `encode` pairs each declared
parameter name, in declaration order, with the combination's value. -/
def encodeKey (doms : List ParameterDomain) (c : Combination) : CacheKey :=
  (doms.map (·.name)).zip c

/-- Modelled from the spec (§3 CacheEntry): `Ok` with a value or
`Failed(error)`. -/
inductive EntryStatus (α : Type) where
  | ok (v : α)
  | failed (e : String)
deriving DecidableEq, Repr

/-- Whether a status is `Ok`. -/
def EntryStatus.isOk : EntryStatus α → Bool
  | .ok _ => true
  | .failed _ => false

/-- Modelled from the spec (§3 CacheEntry): status plus `computed_at`
timestamp. -/
structure CacheEntry (α : Type) where
  status : EntryStatus α
  computed_at : Nat
deriving DecidableEq, Repr

/-- Lookup of the first entry stored under a key. -/
def lookupEntry : List (CacheKey × CacheEntry α) → CacheKey → Option (CacheEntry α)
  | [], _ => none
  | p :: ps, k => if p.1 = k then some p.2 else lookupEntry ps k

/-- Whether an entry list holds the key. -/
def hasKey : List (CacheKey × CacheEntry α) → CacheKey → Bool
  | [], _ => false
  | p :: ps, k => p.1 = k || hasKey ps k

/-- Idempotent overwrite: replace the entry under `k` if present, append
otherwise (last writer wins, §4.3 `put`). -/
def putEntry : List (CacheKey × CacheEntry α) → CacheKey → CacheEntry α →
    List (CacheKey × CacheEntry α)
  | [], k, e => [(k, e)]
  | p :: ps, k, e => if p.1 = k then (k, e) :: ps else p :: putEntry ps k e

/-- Modelled from the spec (§3 CacheStore): an in-memory mapping from
canonical key to cache entry. -/
structure CacheStore (α : Type) where
  entries : List (CacheKey × CacheEntry α)
deriving DecidableEq, Repr

/-- The empty (cold) store. -/
def CacheStore.empty : CacheStore α := ⟨[]⟩

/-- Modelled from the spec (§4.3): `get` is read-only and never computes. -/
def CacheStore.get (s : CacheStore α) (k : CacheKey) : Option (CacheEntry α) :=
  lookupEntry s.entries k

/-- Modelled from the spec (§4.3): `put` is an idempotent overwrite. -/
def CacheStore.put (s : CacheStore α) (k : CacheKey) (e : CacheEntry α) :
    CacheStore α :=
  ⟨putEntry s.entries k e⟩

theorem lookup_putEntry_self (l : List (CacheKey × CacheEntry α)) (k : CacheKey)
    (e : CacheEntry α) : lookupEntry (putEntry l k e) k = some e := by
  induction l with
  | nil => simp [putEntry, lookupEntry]
  | cons p ps ih =>
    by_cases h : p.1 = k
    · simp [putEntry, h, lookupEntry]
    · simp [putEntry, h, lookupEntry, ih]

theorem lookup_putEntry_ne (l : List (CacheKey × CacheEntry α))
    (k k' : CacheKey) (e : CacheEntry α) (hne : k' ≠ k) :
    lookupEntry (putEntry l k e) k' = lookupEntry l k' := by
  have hkk : ¬k = k' := fun hc => hne hc.symm
  induction l with
  | nil => simp [putEntry, lookupEntry, hkk]
  | cons p ps ih =>
    by_cases h : p.1 = k
    · simp [putEntry, h, lookupEntry, hkk]
    · simp [putEntry, h, lookupEntry, ih]

theorem putEntry_eq_append (l : List (CacheKey × CacheEntry α)) (k : CacheKey)
    (e : CacheEntry α) (h : hasKey l k = false) :
    putEntry l k e = l ++ [(k, e)] := by
  induction l with
  | nil => simp [putEntry]
  | cons p ps ih =>
    simp [hasKey] at h
    simp [putEntry, h.1, ih h.2]

theorem hasKey_append (l₁ l₂ : List (CacheKey × CacheEntry α)) (k : CacheKey) :
    hasKey (l₁ ++ l₂) k = (hasKey l₁ k || hasKey l₂ k) := by
  induction l₁ with
  | nil => simp [hasKey]
  | cons p ps ih => simp [hasKey, ih, Bool.or_assoc]

/-- Helper for the Cartesian product: prepend each value of `vs` to every
combination in `rest`, in order. -/
def cartProdAux (rest : List Combination) : List Value → List Combination
  | [] => []
  | v :: vs => rest.map (fun c => v :: c) ++ cartProdAux rest vs

/-- Modelled from the spec (§4.4 step 1): the Cartesian product of the
domains' value lists, in declared parameter order. -/
def cartProd : List (List Value) → List Combination
  | [] => [[]]
  | vs :: ds => cartProdAux (cartProd ds) vs

/-- Modelled from the spec (glossary Combination / §4.4 step 1): the full
combination space of the registered domains. -/
def allCombinations (doms : List ParameterDomain) : List Combination :=
  cartProd (doms.map (·.values))

theorem length_cartProdAux (rest : List Combination) (vs : List Value) :
    (cartProdAux rest vs).length = vs.length * rest.length := by
  induction vs with
  | nil => simp [cartProdAux]
  | cons v vs ih => simp [cartProdAux, ih, Nat.succ_mul, Nat.add_comm]

theorem length_cartProd (ds : List (List Value)) :
    (cartProd ds).length = (ds.map List.length).prod := by
  induction ds with
  | nil => simp [cartProd]
  | cons vs ds ih => simp [cartProd, length_cartProdAux, ih]

theorem mem_cartProdAux {rest : List Combination} {vs : List Value}
    {c : Combination} :
    c ∈ cartProdAux rest vs ↔ ∃ v ∈ vs, ∃ c' ∈ rest, c = v :: c' := by
  induction vs with
  | nil => simp [cartProdAux]
  | cons v vs ih =>
    simp only [cartProdAux, List.mem_append, List.mem_map, ih, List.mem_cons]
    constructor
    · rintro (⟨c', hc', rfl⟩ | ⟨v', hv', c', hc', rfl⟩)
      · exact ⟨v, Or.inl rfl, c', hc', rfl⟩
      · exact ⟨v', Or.inr hv', c', hc', rfl⟩
    · rintro ⟨v', hv' | hv', c', hc', rfl⟩
      · exact Or.inl ⟨c', hc', by rw [hv']⟩
      · exact Or.inr ⟨v', hv', c', hc', rfl⟩

theorem length_of_mem_cartProd {ds : List (List Value)} {c : Combination}
    (h : c ∈ cartProd ds) : c.length = ds.length := by
  induction ds generalizing c with
  | nil => simp [cartProd] at h; simp [h]
  | cons vs ds ih =>
    simp only [cartProd, mem_cartProdAux] at h
    obtain ⟨v, -, c', hc', rfl⟩ := h
    simp [ih hc']

theorem nodup_cartProdAux {rest : List Combination} {vs : List Value}
    (hvs : vs.Nodup) (hrest : rest.Nodup) : (cartProdAux rest vs).Nodup := by
  induction vs with
  | nil => simp [cartProdAux]
  | cons v vs ih =>
    simp only [List.nodup_cons] at hvs
    refine List.Nodup.append ?_ (ih hvs.2) ?_
    · exact hrest.map fun c₁ c₂ h => List.cons.injEq .. ▸ h |>.2
    · intro c hc₁ hc₂
      obtain ⟨c', -, rfl⟩ := List.mem_map.mp hc₁
      obtain ⟨v', hv', c'', -, heq⟩ := mem_cartProdAux.mp hc₂
      cases heq
      exact hvs.1 hv'

theorem nodup_cartProd {ds : List (List Value)}
    (h : ∀ d ∈ ds, d.Nodup) : (cartProd ds).Nodup := by
  induction ds with
  | nil => simp [cartProd]
  | cons vs ds ih =>
    exact nodup_cartProdAux (h vs (by simp))
      (ih fun d hd => h d (List.mem_cons_of_mem _ hd))

theorem zip_right_injective (ns : List String) (c₁ c₂ : List Value)
    (h₁ : c₁.length = ns.length) (h₂ : c₂.length = ns.length)
    (h : ns.zip c₁ = ns.zip c₂) : c₁ = c₂ := by
  induction ns generalizing c₁ c₂ with
  | nil =>
    cases c₁ <;> cases c₂ <;> simp_all
  | cons n ns ih =>
    cases c₁ with
    | nil => simp at h₁
    | cons x₁ t₁ =>
      cases c₂ with
      | nil => simp at h₂
      | cons x₂ t₂ =>
        simp only [List.zip_cons_cons, List.cons.injEq, Prod.mk.injEq] at h
        simp only [List.length_cons, Nat.succ.injEq] at h₁ h₂
        exact List.cons.injEq .. ▸ ⟨h.1.2, ih t₁ t₂ h₁ h₂ h.2⟩

theorem encodeKey_injOn (doms : List ParameterDomain) (c₁ c₂ : Combination)
    (h₁ : c₁ ∈ allCombinations doms) (h₂ : c₂ ∈ allCombinations doms)
    (h : encodeKey doms c₁ = encodeKey doms c₂) : c₁ = c₂ := by
  have l₁ := length_of_mem_cartProd h₁
  have l₂ := length_of_mem_cartProd h₂
  simp only [List.length_map] at l₁ l₂
  unfold encodeKey at h
  exact zip_right_injective (doms.map (·.name)) c₁ c₂
    (by simpa using l₁) (by simpa using l₂) h

/-- Modelled from the spec (§4.4 step 4): a run result becomes an `Ok` entry
on success and a `Failed(error)` entry on failure, stamped `computed_at`. -/
def entryOf (r : Except String α) (t : Nat) : CacheEntry α :=
  ⟨match r with
   | .ok v => .ok v
   | .error e => .failed e, t⟩

/-- Whether the store holds a successful (`Ok`) entry under the key. -/
def isSuccessful (s : CacheStore α) (k : CacheKey) : Bool :=
  match s.get k with
  | some e => e.status.isOk
  | none => false

/-- Modelled from the spec (§4.4 step 2): the combinations not already
present as a successful entry, i.e. the `PrecomputationJob`s enqueued. -/
def pendingJobs (doms : List ParameterDomain) (s : CacheStore α) :
    List Combination :=
  (allCombinations doms).filter fun c => !(isSuccessful s (encodeKey doms c))

/-- Modelled from the spec (§4.4 steps 3-4): execute each job, writing an
entry per combination. Completion order is unobservable in the final store
(§5 per-key atomicity, cross-key independence), so the bounded-concurrency
execution is embedded sequentially. -/
def execJobs (keyOf : Combination → CacheKey)
    (target : Combination → Except String α) (t : Nat) :
    List (CacheKey × CacheEntry α) → List Combination →
      List (CacheKey × CacheEntry α)
  | l, [] => l
  | l, c :: cs =>
    execJobs keyOf target t (putEntry l (keyOf c) (entryOf (target c) t)) cs

/-- Outcome of one scheduler run: the updated store plus the list of
combinations on which `target_function` was invoked. -/
structure RunResult (α : Type) where
  store : CacheStore α
  invoked : List Combination
deriving DecidableEq, Repr

/-- Modelled from the spec (§4.4 `run`): enqueue the pending jobs and
execute them all; `concurrency_limit` bounds in-flight calls and does not
affect the final store contents. -/
def runPrecomputation (doms : List ParameterDomain)
    (target : Combination → Except String α) (concurrency_limit : Nat)
    (t : Nat) (s : CacheStore α) : RunResult α :=
  let jobs := pendingJobs doms s
  ⟨⟨execJobs (encodeKey doms) target t s.entries jobs⟩, jobs⟩

/-- Whether an `Except` result is a success. -/
def exceptOk : Except String α → Bool
  | .ok _ => true
  | .error _ => false

theorem execJobs_lookup_of_not_key (keyOf : Combination → CacheKey)
    (target : Combination → Except String α) (t : Nat)
    (l : List (CacheKey × CacheEntry α)) (jobs : List Combination)
    (k : CacheKey) (h : ∀ c ∈ jobs, keyOf c ≠ k) :
    lookupEntry (execJobs keyOf target t l jobs) k = lookupEntry l k := by
  induction jobs generalizing l with
  | nil => rfl
  | cons c cs ih =>
    rw [execJobs, ih _ fun c' hc' => h c' (List.mem_cons_of_mem _ hc'),
      lookup_putEntry_ne]
    exact fun hk => h c (List.mem_cons_self c cs) hk.symm

theorem execJobs_lookup_of_mem (keyOf : Combination → CacheKey)
    (target : Combination → Except String α) (t : Nat)
    (l : List (CacheKey × CacheEntry α)) (jobs : List Combination)
    (c : Combination) (hnd : (jobs.map keyOf).Nodup) (hc : c ∈ jobs) :
    lookupEntry (execJobs keyOf target t l jobs) (keyOf c) =
      some (entryOf (target c) t) := by
  induction jobs generalizing l with
  | nil => cases hc
  | cons c₀ cs ih =>
    simp only [List.map_cons, List.nodup_cons] at hnd
    rcases List.mem_cons.mp hc with rfl | hmem
    · rw [execJobs, execJobs_lookup_of_not_key]
      · exact lookup_putEntry_self ..
      · exact fun c' hc' heq => hnd.1 (List.mem_map.mpr ⟨c', hc', heq⟩)
    · exact ih _ hnd.2 hmem

theorem execJobs_eq_append (keyOf : Combination → CacheKey)
    (target : Combination → Except String α) (t : Nat)
    (l : List (CacheKey × CacheEntry α)) (jobs : List Combination)
    (hfresh : ∀ c ∈ jobs, hasKey l (keyOf c) = false)
    (hnd : (jobs.map keyOf).Nodup) :
    execJobs keyOf target t l jobs =
      l ++ jobs.map fun c => (keyOf c, entryOf (target c) t) := by
  induction jobs generalizing l with
  | nil => simp [execJobs]
  | cons c₀ cs ih =>
    simp only [List.map_cons, List.nodup_cons] at hnd
    rw [execJobs, putEntry_eq_append _ _ _ (hfresh c₀ (List.mem_cons_self c₀ cs)),
      ih _ ?_ hnd.2]
    · simp
    · intro c hc
      rw [hasKey_append, hfresh c (List.mem_cons_of_mem _ hc), Bool.false_or]
      have : ¬(keyOf c₀ = keyOf c) := fun heq =>
        hnd.1 (List.mem_map.mpr ⟨c, hc, heq.symm⟩)
      simp [hasKey, this]

theorem pendingJobs_empty (doms : List ParameterDomain) :
    pendingJobs doms (CacheStore.empty (α := α)) = allCombinations doms := by
  rw [pendingJobs, List.filter_eq_self]
  intro c _
  rfl

theorem nodup_allCombinations (doms : List ParameterDomain)
    (h : ∀ d ∈ doms, d.values.Nodup) : (allCombinations doms).Nodup := by
  refine nodup_cartProd fun d hd => ?_
  obtain ⟨d₀, hd₀, rfl⟩ := List.mem_map.mp hd
  exact h d₀ hd₀

theorem nodup_pendingJobs_keys (doms : List ParameterDomain)
    (s : CacheStore α) (h : ∀ d ∈ doms, d.values.Nodup) :
    ((pendingJobs doms s).map (encodeKey doms)).Nodup := by
  refine List.Nodup.map_on ?_ ((nodup_allCombinations doms h).filter _)
  intro c₁ h₁ c₂ h₂ heq
  exact encodeKey_injOn doms c₁ c₂ (List.mem_of_mem_filter h₁)
    (List.mem_of_mem_filter h₂) heq

/-- Parse a serialized value back into a `SubregionEnum` member. -/
def SubregionEnum.fromValue? : Value → Option SubregionEnum
  | "EMEA" => some .EMEA
  | "APAC" => some .APAC
  | "AMER" => some .AMER
  | _ => none

/-- Parse a serialized value back into a `StoreIDEnum` member. -/
def StoreIDEnum.fromValue? : Value → Option StoreIDEnum
  | "101" => some .STORE_101
  | "202" => some .STORE_202
  | "303" => some .STORE_303
  | "404" => some .STORE_404
  | "ONLINE" => some .ONLINE
  | _ => none

/-- The domains the registry derives for `get_sales_report`: `subregion` over
the `SubregionEnum` members and `store_id` over the `StoreIDEnum` members, in
declaration order. -/
def salesDomains : List ParameterDomain :=
  [⟨"subregion", ["EMEA", "APAC", "AMER"]⟩,
   ⟨"store_id", ["101", "202", "303", "404", "ONLINE"]⟩]

/-- `get_sales_report` as a target function over serialized combinations. -/
def targetSales : Combination → Except String Report
  | [sv, stv] =>
    match SubregionEnum.fromValue? sv, StoreIDEnum.fromValue? stv with
    | some sr, some st => get_sales_report sr st
    | _, _ => .error "unprocessable"
  | _ => .error "arity"

/-- C2: for every finite family of registered domains, a successful
precomputation run over a cold store leaves exactly `|D1| * ... * |Dn|`
entries in the Cache Store, one per combination of the Cartesian product,
each under a distinct key. -/
theorem c2_cartesian_entry_count (doms : List ParameterDomain)
    (target : Combination → Except String α) (climit t : Nat)
    (hnd : ∀ d ∈ doms, d.values.Nodup)
    (hok : ∀ c ∈ allCombinations doms, exceptOk (target c) = true) :
    ((runPrecomputation doms target climit t CacheStore.empty).store.entries.length =
        (doms.map fun d => d.values.length).prod) ∧
    ((runPrecomputation doms target climit t
        CacheStore.empty).store.entries.map Prod.fst).Nodup ∧
    ∀ c ∈ allCombinations doms,
      ∃ e, (runPrecomputation doms target climit t CacheStore.empty).store.get
          (encodeKey doms c) = some e ∧ e.status.isOk = true := by
  have hjobs := pendingJobs_empty (α := α) doms
  have hknd := nodup_pendingJobs_keys doms (CacheStore.empty (α := α)) hnd
  have happ := execJobs_eq_append (encodeKey doms) target t
    (CacheStore.empty (α := α)).entries (pendingJobs doms CacheStore.empty)
    (fun c _ => rfl) hknd
  refine ⟨?_, ?_, ?_⟩
  · show (execJobs (encodeKey doms) target t
        (CacheStore.empty (α := α)).entries (pendingJobs doms _)).length = _
    rw [happ, hjobs]
    simp [CacheStore.empty, allCombinations, length_cartProd,
      List.map_map, Function.comp_def]
  · show ((execJobs (encodeKey doms) target t
        (CacheStore.empty (α := α)).entries (pendingJobs doms _)).map Prod.fst).Nodup
    rw [happ]
    simpa [CacheStore.empty, List.map_map, Function.comp_def] using hknd
  · intro c hc
    refine ⟨entryOf (target c) t, ?_, ?_⟩
    · exact execJobs_lookup_of_mem (encodeKey doms) target t _ _ c hknd
        (hjobs ▸ hc)
    · have := hok c hc
      cases h : target c with
      | ok v => simp [entryOf, h, EntryStatus.isOk]
      | error e => rw [h] at this; simp [exceptOk] at this

/-- Witness for C2 at the example's domains (sizes 3 and 5, so 15 entries)
and `get_sales_report` as the target. -/
theorem c2_cartesian_entry_count_witness :
    ((runPrecomputation salesDomains targetSales 10 0
        CacheStore.empty).store.entries.length =
      (salesDomains.map fun d => d.values.length).prod) ∧
    ((runPrecomputation salesDomains targetSales 10 0
        CacheStore.empty).store.entries.map Prod.fst).Nodup ∧
    ∀ c ∈ allCombinations salesDomains,
      ∃ e, (runPrecomputation salesDomains targetSales 10 0
          CacheStore.empty).store.get (encodeKey salesDomains c) = some e ∧
        e.status.isOk = true :=
  c2_cartesian_entry_count salesDomains targetSales 10 0 (by decide) (by decide)

theorem mem_pendingJobs {doms : List ParameterDomain} {s : CacheStore α}
    {c : Combination} :
    c ∈ pendingJobs doms s ↔
      c ∈ allCombinations doms ∧
        isSuccessful s (encodeKey doms c) = false := by
  simp [pendingJobs, List.mem_filter]

theorem run_get_of_not_pending_key (doms : List ParameterDomain)
    (target : Combination → Except String α) (climit t : Nat)
    (s : CacheStore α) (k : CacheKey)
    (h : ∀ c ∈ pendingJobs doms s, encodeKey doms c ≠ k) :
    (runPrecomputation doms target climit t s).store.get k = s.get k :=
  execJobs_lookup_of_not_key (encodeKey doms) target t s.entries
    (pendingJobs doms s) k h

theorem run_get_of_pending (doms : List ParameterDomain)
    (target : Combination → Except String α) (climit t : Nat)
    (s : CacheStore α) (c : Combination)
    (hnd : ∀ d ∈ doms, d.values.Nodup) (hc : c ∈ pendingJobs doms s) :
    (runPrecomputation doms target climit t s).store.get (encodeKey doms c) =
      some (entryOf (target c) t) :=
  execJobs_lookup_of_mem (encodeKey doms) target t s.entries
    (pendingJobs doms s) c (nodup_pendingJobs_keys doms s hnd) hc

theorem runPrecomputation_invoked (doms : List ParameterDomain)
    (target : Combination → Except String α) (climit t : Nat)
    (s : CacheStore α) :
    (runPrecomputation doms target climit t s).invoked = pendingJobs doms s :=
  rfl

/-- C3: partial-failure isolation — when `target_function` fails for exactly
one combination out of the product, the run still writes every entry: the
failing combination is stored with a `Failed` status recording the error,
and every other combination is stored successfully and is retrievable. -/
theorem c3_partial_failure_isolation (doms : List ParameterDomain)
    (target : Combination → Except String α) (climit t : Nat)
    (c₀ : Combination) (err : String)
    (hnd : ∀ d ∈ doms, d.values.Nodup)
    (hc₀ : c₀ ∈ allCombinations doms)
    (hfail : target c₀ = .error err)
    (hothers : ∀ c ∈ allCombinations doms, c ≠ c₀ →
      exceptOk (target c) = true) :
    ((runPrecomputation doms target climit t CacheStore.empty).store.get
        (encodeKey doms c₀) = some ⟨.failed err, t⟩) ∧
    ∀ c ∈ allCombinations doms, c ≠ c₀ →
      ∃ v, target c = .ok v ∧
        (runPrecomputation doms target climit t CacheStore.empty).store.get
          (encodeKey doms c) = some ⟨.ok v, t⟩ := by
  have hjobs := pendingJobs_empty (α := α) doms
  constructor
  · rw [run_get_of_pending doms target climit t CacheStore.empty c₀ hnd
      (hjobs ▸ hc₀), hfail]
    rfl
  · intro c hc hne
    cases hok : target c with
    | error e =>
      have := hothers c hc hne
      rw [hok] at this
      simp [exceptOk] at this
    | ok v =>
      refine ⟨v, rfl, ?_⟩
      rw [run_get_of_pending doms target climit t CacheStore.empty c hnd
        (hjobs ▸ hc), hok]
      rfl

/-- Witness for C3 at the example's domains with a target that fails only on
the combination `(AMER, ONLINE)`. -/
theorem c3_partial_failure_isolation_witness :
    ((runPrecomputation salesDomains
        (fun c => if c = ["AMER", "ONLINE"] then .error "boom" else targetSales c)
        4 7 CacheStore.empty).store.get
        (encodeKey salesDomains ["AMER", "ONLINE"]) =
      some ⟨.failed "boom", 7⟩) ∧
    ∀ c ∈ allCombinations salesDomains, c ≠ ["AMER", "ONLINE"] →
      ∃ v, (if c = ["AMER", "ONLINE"] then .error "boom" else targetSales c) =
          Except.ok v ∧
        (runPrecomputation salesDomains
          (fun c => if c = ["AMER", "ONLINE"] then .error "boom" else targetSales c)
          4 7 CacheStore.empty).store.get (encodeKey salesDomains c) =
          some ⟨.ok v, 7⟩ :=
  c3_partial_failure_isolation salesDomains
    (fun c => if c = ["AMER", "ONLINE"] then .error "boom" else targetSales c)
    4 7 ["AMER", "ONLINE"] "boom" (by decide) (by decide) (by decide) (by decide)

/-- The value stored under `k` when the store holds a successful entry
there, and `none` otherwise. -/
def successfulValue (s : CacheStore α) (k : CacheKey) : Option α :=
  (s.get k).bind fun e =>
    match e.status with
    | .ok v => some v
    | .failed _ => none

theorem successfulValue_of_not_successful (s : CacheStore α) (k : CacheKey)
    (h : isSuccessful s k = false) : successfulValue s k = none := by
  unfold isSuccessful at h
  unfold successfulValue
  cases hg : s.get k with
  | none => rfl
  | some e =>
    rw [hg] at h
    obtain ⟨st, ct⟩ := e
    cases st with
    | ok v => simp [EntryStatus.isOk] at h
    | failed e' => rfl

/-- C4: idempotence of precomputation — in a second run against the store
left by a first run, only combinations not successful after the first run
are enqueued (zero invocations of `target_function` for already-successful
combinations), entries successful after the first run are untouched, and
the set of successful entries is identical after both runs. -/
theorem c4_idempotent_rerun (doms : List ParameterDomain)
    (target : Combination → Except String α) (climit t₁ t₂ : Nat)
    (s₀ : CacheStore α) (hnd : ∀ d ∈ doms, d.values.Nodup) :
    (∀ c ∈ (runPrecomputation doms target climit t₂
        (runPrecomputation doms target climit t₁ s₀).store).invoked,
      isSuccessful (runPrecomputation doms target climit t₁ s₀).store
        (encodeKey doms c) = false) ∧
    (∀ k, isSuccessful (runPrecomputation doms target climit t₁ s₀).store k =
        true →
      (runPrecomputation doms target climit t₂
          (runPrecomputation doms target climit t₁ s₀).store).store.get k =
        (runPrecomputation doms target climit t₁ s₀).store.get k) ∧
    (∀ k, successfulValue (runPrecomputation doms target climit t₂
          (runPrecomputation doms target climit t₁ s₀).store).store k =
        successfulValue (runPrecomputation doms target climit t₁ s₀).store k) := by
  refine ⟨?_, ?_, ?_⟩
  · intro c hc
    exact (mem_pendingJobs.mp (runPrecomputation_invoked .. ▸ hc)).2
  · intro k hk
    apply run_get_of_not_pending_key
    intro c hc heq
    have hf := (mem_pendingJobs.mp hc).2
    rw [heq, hk] at hf
    cases hf
  · intro k
    by_cases hp : ∃ c ∈ pendingJobs doms
        (runPrecomputation doms target climit t₁ s₀).store,
        encodeKey doms c = k
    · obtain ⟨c, hcp, rfl⟩ := hp
      have hc := mem_pendingJobs.mp hcp
      have herr : ∃ e, target c = .error e := by
        by_cases h1 : c ∈ pendingJobs doms s₀
        · have hg := run_get_of_pending doms target climit t₁ s₀ c hnd h1
          cases ht : target c with
          | ok v =>
            exfalso
            have hsucc : isSuccessful
                (runPrecomputation doms target climit t₁ s₀).store
                (encodeKey doms c) = true := by
              unfold isSuccessful
              rw [hg, ht]
              rfl
            rw [hc.2] at hsucc
            cases hsucc
          | error e => exact ⟨e, rfl⟩
        · exfalso
          have hnk : ∀ c' ∈ pendingJobs doms s₀,
              encodeKey doms c' ≠ encodeKey doms c := by
            intro c' hc' heq
            have hmem := (mem_pendingJobs.mp hc').1
            have hcc := encodeKey_injOn doms c' c hmem hc.1 heq
            subst hcc
            exact h1 hc'
          have hg := run_get_of_not_pending_key doms target climit t₁ s₀ _ hnk
          have hs₀ : isSuccessful s₀ (encodeKey doms c) = true := by
            by_contra hff
            exact h1 (mem_pendingJobs.mpr ⟨hc.1, by simpa using hff⟩)
          have hs₁ : isSuccessful
              (runPrecomputation doms target climit t₁ s₀).store
              (encodeKey doms c) = true := by
            unfold isSuccessful at hs₀ ⊢
            rw [hg]
            exact hs₀
          rw [hc.2] at hs₁
          cases hs₁
      obtain ⟨e, he⟩ := herr
      have hg₂ := run_get_of_pending doms target climit t₂
        (runPrecomputation doms target climit t₁ s₀).store c hnd hcp
      rw [he] at hg₂
      rw [successfulValue_of_not_successful _ _ hc.2]
      unfold successfulValue
      rw [hg₂]
      rfl
    · have hnk : ∀ c ∈ pendingJobs doms
          (runPrecomputation doms target climit t₁ s₀).store,
          encodeKey doms c ≠ k := fun c hcp heq => hp ⟨c, hcp, heq⟩
      unfold successfulValue
      rw [run_get_of_not_pending_key doms target climit t₂ _ k hnk]

/-- Witness for C4 at the example's domains and `get_sales_report`. -/
theorem c4_idempotent_rerun_witness :
    (∀ c ∈ (runPrecomputation salesDomains targetSales 4 1
        (runPrecomputation salesDomains targetSales 4 0
          CacheStore.empty).store).invoked,
      isSuccessful (runPrecomputation salesDomains targetSales 4 0
          CacheStore.empty).store (encodeKey salesDomains c) = false) ∧
    (∀ k, isSuccessful (runPrecomputation salesDomains targetSales 4 0
          CacheStore.empty).store k = true →
      (runPrecomputation salesDomains targetSales 4 1
          (runPrecomputation salesDomains targetSales 4 0
            CacheStore.empty).store).store.get k =
        (runPrecomputation salesDomains targetSales 4 0
          CacheStore.empty).store.get k) ∧
    (∀ k, successfulValue (runPrecomputation salesDomains targetSales 4 1
          (runPrecomputation salesDomains targetSales 4 0
            CacheStore.empty).store).store k =
        successfulValue (runPrecomputation salesDomains targetSales 4 0
          CacheStore.empty).store k) :=
  c4_idempotent_rerun salesDomains targetSales 4 0 1 CacheStore.empty (by decide)

/-- Modelled from the spec (§4.5, §7): caller-visible cache errors —
`CacheMissError` under the strict policy, a replayed stored failure, or a
fresh computation failure under lazy fill. -/
inductive CacheError where
  | cacheMiss
  | replayedFailure (e : String)
  | computeFailure (e : String)
deriving DecidableEq, Repr

/-- Modelled from the spec (§6 configuration surface): the miss policy is
either strict-fail or lazy-fill. -/
inductive MissPolicy where
  | strictFail
  | lazyFill
deriving DecidableEq, Repr

/-- Outcome of one invocation of the wrapped callable: the caller-visible
result, the store afterwards, and whether `target_function` was invoked. -/
structure CallOutcome (α : Type) where
  result : Except CacheError α
  store : CacheStore α
  invokedTarget : Bool
deriving DecidableEq, Repr

/-- Modelled from the spec (§4.5 Interception Wrapper state machine):
derive the key, `get` from the store; on an `Ok` hit return the stored
value, on a `Failed` hit replay the stored failure, on a miss either fail
fast with `CacheMissError` (strict) or compute synchronously, insert, and
return the result (lazy fill). -/
def wrappedCall (policy : MissPolicy) (doms : List ParameterDomain)
    (target : Combination → Except String α) (t : Nat)
    (s : CacheStore α) (c : Combination) : CallOutcome α :=
  match s.get (encodeKey doms c) with
  | some e =>
    match e.status with
    | .ok v => ⟨.ok v, s, false⟩
    | .failed err => ⟨.error (.replayedFailure err), s, false⟩
  | none =>
    match policy with
    | .strictFail => ⟨.error .cacheMiss, s, false⟩
    | .lazyFill =>
      match target c with
      | .ok v => ⟨.ok v, s.put (encodeKey doms c) ⟨.ok v, t⟩, true⟩
      | .error err =>
        ⟨.error (.computeFailure err),
          s.put (encodeKey doms c) ⟨.failed err, t⟩, true⟩

/-- C6: miss-policy dichotomy — on a combination whose key is absent from
the store, strict mode fails with `CacheMissError` leaving the store
unchanged and never invoking the target, while lazy-fill mode invokes the
target synchronously, inserts the matching new entry, and returns the
computed result. -/
theorem c6_miss_policy_dichotomy (doms : List ParameterDomain)
    (target : Combination → Except String α) (t : Nat) (s : CacheStore α)
    (c : Combination) (hmiss : s.get (encodeKey doms c) = none) :
    (wrappedCall .strictFail doms target t s c =
      ⟨.error .cacheMiss, s, false⟩) ∧
    ((wrappedCall .lazyFill doms target t s c).invokedTarget = true ∧
      (wrappedCall .lazyFill doms target t s c).store =
        s.put (encodeKey doms c) (entryOf (target c) t) ∧
      (wrappedCall .lazyFill doms target t s c).store.get
          (encodeKey doms c) = some (entryOf (target c) t) ∧
      (∀ v, target c = .ok v →
        (wrappedCall .lazyFill doms target t s c).result = .ok v) ∧
      (∀ e, target c = .error e →
        (wrappedCall .lazyFill doms target t s c).result =
          .error (.computeFailure e))) := by
  refine ⟨?_, ?_⟩
  · unfold wrappedCall
    rw [hmiss]
  · cases ht : target c with
    | ok v =>
      unfold wrappedCall
      rw [hmiss, ht]
      refine ⟨rfl, by simp [entryOf], ?_, ?_, ?_⟩
      · show (s.put (encodeKey doms c) ⟨.ok v, t⟩).get (encodeKey doms c) = _
        simp [CacheStore.put, CacheStore.get, lookup_putEntry_self, entryOf]
      · intro v' hv'
        cases hv'
        rfl
      · intro e he
        exact Except.noConfusion he
    | error err =>
      unfold wrappedCall
      rw [hmiss, ht]
      refine ⟨rfl, by simp [entryOf], ?_, ?_, ?_⟩
      · show (s.put (encodeKey doms c) ⟨.failed err, t⟩).get
            (encodeKey doms c) = _
        simp [CacheStore.put, CacheStore.get, lookup_putEntry_self, entryOf]
      · intro v' hv'
        exact Except.noConfusion hv'
      · intro e he
        cases he
        rfl

/-- Witness for C6 at the example's domains, an empty store, and the
combination `(AMER, ONLINE)`. -/
theorem c6_miss_policy_dichotomy_witness :
    (wrappedCall .strictFail salesDomains targetSales 5 CacheStore.empty
        ["AMER", "ONLINE"] = ⟨.error .cacheMiss, CacheStore.empty, false⟩) ∧
    ((wrappedCall .lazyFill salesDomains targetSales 5 CacheStore.empty
        ["AMER", "ONLINE"]).invokedTarget = true ∧
      (wrappedCall .lazyFill salesDomains targetSales 5 CacheStore.empty
          ["AMER", "ONLINE"]).store =
        CacheStore.empty.put (encodeKey salesDomains ["AMER", "ONLINE"])
          (entryOf (targetSales ["AMER", "ONLINE"]) 5) ∧
      (wrappedCall .lazyFill salesDomains targetSales 5 CacheStore.empty
          ["AMER", "ONLINE"]).store.get
          (encodeKey salesDomains ["AMER", "ONLINE"]) =
        some (entryOf (targetSales ["AMER", "ONLINE"]) 5) ∧
      (∀ v, targetSales ["AMER", "ONLINE"] = .ok v →
        (wrappedCall .lazyFill salesDomains targetSales 5 CacheStore.empty
          ["AMER", "ONLINE"]).result = .ok v) ∧
      (∀ e, targetSales ["AMER", "ONLINE"] = .error e →
        (wrappedCall .lazyFill salesDomains targetSales 5 CacheStore.empty
          ["AMER", "ONLINE"]).result = .error (.computeFailure e))) :=
  c6_miss_policy_dichotomy salesDomains targetSales 5 CacheStore.empty
    ["AMER", "ONLINE"] rfl

/-- The serialized combination `(AMER, ONLINE)` of the concrete scenario. -/
def amerOnline : Combination := ["AMER", "ONLINE"]

/-- State threaded through the concrete C1 scenario: the store, the result
of the most recent call of the wrapped function, and the call counter on
the wrapped function for the combination `(AMER, ONLINE)` (number of times
the original function has run for it). -/
structure ScenarioState where
  store : CacheStore Report
  lastResult : Option (Except CacheError Report)
  amerOnlineCalls : Nat
deriving DecidableEq, Repr

/-- After startup precomputation over the example's domains: the populated
store and one original-function invocation per enqueued job. -/
def scenarioInit : ScenarioState :=
  ⟨(runPrecomputation salesDomains targetSales 4 0 CacheStore.empty).store,
    none,
    (runPrecomputation salesDomains targetSales 4 0
      CacheStore.empty).invoked.count amerOnline⟩

/-- One live call of the wrapped function with arguments `(AMER, ONLINE)`;
the counter advances only when the original function actually runs. -/
def scenarioStep (st : ScenarioState) : ScenarioState :=
  let o := wrappedCall .strictFail salesDomains targetSales 1 st.store amerOnline
  ⟨o.store, some o.result,
    st.amerOnlineCalls + (if o.invokedTarget then 1 else 0)⟩

/-- The scenario state after precomputation followed by `n` repeated calls
with the exact arguments `(AMER, ONLINE)`. -/
def scenarioAfter (n : Nat) : ScenarioState := scenarioStep^[n] scenarioInit

theorem scenarioStep_fixed : scenarioStep (scenarioAfter 1) = scenarioAfter 1 := by
  decide

theorem scenarioAfter_stable (n : Nat) (h : 1 ≤ n) :
    scenarioAfter n = scenarioAfter 1 := by
  induction n with
  | zero => cases h
  | succ m ih =>
    rcases Nat.eq_or_lt_of_le h with h1 | h1
    · rw [← h1]
    · have hm : 1 ≤ m := Nat.lt_succ_iff.mp h1
      have : scenarioAfter (m + 1) = scenarioStep (scenarioAfter m) :=
        Function.iterate_succ_apply' scenarioStep m scenarioInit
      rw [this, ih hm, scenarioStep_fixed]

/-- C1: in the concrete scenario, precomputation maps `(AMER, ONLINE)` to a
cached value whose revenue is `len("AMER") * 5000 = 20000`, and for every
`N ≥ 1`, after `N` repeated calls with those exact arguments each call
returned that cached value and the call counter on the wrapped function
stays at exactly 1 for that combination. -/
theorem c1_amer_online_cached_once (n : Nat) (h : 1 ≤ n) :
    (scenarioAfter n).amerOnlineCalls = 1 ∧
    (scenarioAfter n).lastResult =
      some (.ok ⟨.AMER, .ONLINE, ("AMER".length : Int) * 5000⟩) ∧
    (scenarioAfter n).lastResult = some (.ok ⟨.AMER, .ONLINE, 20000⟩) ∧
    (scenarioAfter n).store.get (encodeKey salesDomains amerOnline) =
      some ⟨.ok ⟨.AMER, .ONLINE, 20000⟩, 0⟩ := by
  rw [scenarioAfter_stable n h]
  refine ⟨by decide, by decide, by decide, by decide⟩

/-- Witness for C1 at `N = 3` repeated calls. -/
theorem c1_amer_online_cached_once_witness :
    (scenarioAfter 3).amerOnlineCalls = 1 ∧
    (scenarioAfter 3).lastResult =
      some (.ok ⟨.AMER, .ONLINE, ("AMER".length : Int) * 5000⟩) ∧
    (scenarioAfter 3).lastResult = some (.ok ⟨.AMER, .ONLINE, 20000⟩) ∧
    (scenarioAfter 3).store.get (encodeKey salesDomains amerOnline) =
      some ⟨.ok ⟨.AMER, .ONLINE, 20000⟩, 0⟩ :=
  c1_amer_online_cached_once 3 (by decide)

/-- Modelled from the spec (§6 persisted file format): one persisted record
`\x7bstatus: "ok"|"failed", value_or_error, computed_at\x7d`. -/
structure PersistedEntry where
  status : String
  value_or_error : String
  computed_at : Nat
deriving DecidableEq, Repr

/-- Modelled from the spec (§6): the persisted document — a mapping from
canonical cache key to persisted record. -/
abbrev PersistedDoc := List (CacheKey × PersistedEntry)

/-- Modelled from the spec (§6): serialize one entry into its persisted
record, tagging the status `"ok"` or `"failed"`. -/
def persistEntry (ser : α → String) (e : CacheEntry α) : PersistedEntry :=
  match e.status with
  | .ok v => ⟨"ok", ser v, e.computed_at⟩
  | .failed err => ⟨"failed", err, e.computed_at⟩

/-- Modelled from the spec (§4.3 load, §7 DecodeError): rehydrate one
persisted record into a typed entry; a malformed record yields `none` and
is discarded rather than aborting the load. -/
def readEntry (deser : String → Option α) (p : PersistedEntry) :
    Option (CacheEntry α) :=
  if p.status = "ok" then
    (deser p.value_or_error).map fun v => ⟨.ok v, p.computed_at⟩
  else if p.status = "failed" then
    some ⟨.failed p.value_or_error, p.computed_at⟩
  else
    none

/-- Modelled from the spec (§4.3 flush): serialize the current snapshot as
the persisted document. -/
def flushDoc (ser : α → String) (s : CacheStore α) : PersistedDoc :=
  s.entries.map fun p => (p.1, persistEntry ser p.2)

/-- Modelled from the spec (§4.3 load): rehydrate a persisted document into
a fresh store, discarding malformed records. -/
def loadStore (deser : String → Option α) (doc : PersistedDoc) : CacheStore α :=
  ⟨doc.foldr (fun p acc =>
    match readEntry deser p.2 with
    | some e => (p.1, e) :: acc
    | none => acc) []⟩

theorem readEntry_persistEntry (ser : α → String) (deser : String → Option α)
    (hrt : ∀ v, deser (ser v) = some v) (e : CacheEntry α) :
    readEntry deser (persistEntry ser e) = some e := by
  obtain ⟨st, ct⟩ := e
  cases st with
  | ok v => simp [persistEntry, readEntry, hrt]
  | failed err => simp [persistEntry, readEntry]

theorem loadStore_flushDoc (ser : α → String) (deser : String → Option α)
    (s : CacheStore α) (hrt : ∀ v, deser (ser v) = some v) :
    loadStore deser (flushDoc ser s) = s := by
  obtain ⟨l⟩ := s
  unfold loadStore flushDoc
  congr 1
  induction l with
  | nil => rfl
  | cons p ps ih =>
    simp only [List.map_cons, List.foldr_cons, readEntry_persistEntry ser deser hrt]
    rw [ih]

/-- C5: persistence round trip — for every store state, `flush` to the
persisted document followed by `load` into a fresh store yields a store
whose `get` result for every key is value-identical to the pre-flush
store's `get` result for that key. -/
theorem c5_flush_load_roundtrip (ser : α → String) (deser : String → Option α)
    (s : CacheStore α) (hrt : ∀ v, deser (ser v) = some v) :
    ∀ k, (loadStore deser (flushDoc ser s)).get k = s.get k := by
  intro k
  rw [loadStore_flushDoc ser deser s hrt]

/-- Witness for C5 on a concrete store holding one `Ok` and one `Failed`
entry, with the identity serializer, checked at both stored keys. -/
theorem c5_flush_load_roundtrip_witness :
    (loadStore some (flushDoc id
        (⟨[([("a", "x")], ⟨.ok "v", 3⟩), ([("a", "y")], ⟨.failed "e", 4⟩)]⟩ :
          CacheStore String))).get [("a", "x")] =
      (⟨[([("a", "x")], ⟨.ok "v", 3⟩), ([("a", "y")], ⟨.failed "e", 4⟩)]⟩ :
        CacheStore String).get [("a", "x")] ∧
    (loadStore some (flushDoc id
        (⟨[([("a", "x")], ⟨.ok "v", 3⟩), ([("a", "y")], ⟨.failed "e", 4⟩)]⟩ :
          CacheStore String))).get [("a", "y")] =
      (⟨[([("a", "x")], ⟨.ok "v", 3⟩), ([("a", "y")], ⟨.failed "e", 4⟩)]⟩ :
        CacheStore String).get [("a", "y")] :=
  ⟨c5_flush_load_roundtrip id some
      ⟨[([("a", "x")], ⟨.ok "v", 3⟩), ([("a", "y")], ⟨.failed "e", 4⟩)]⟩
      (fun v => rfl) [("a", "x")],
    c5_flush_load_roundtrip id some
      ⟨[([("a", "x")], ⟨.ok "v", 3⟩), ([("a", "y")], ⟨.failed "e", 4⟩)]⟩
      (fun v => rfl) [("a", "y")]⟩

/-- Modelled from the spec (§7): persistence-level errors. -/
inductive PersistenceError where
  | loadFailure
  | flushFailure
deriving DecidableEq, Repr

/-- Modelled from the spec (§4.3 load, §7): constructing a store from the
backing file; an unreadable file (`none`) or a corrupt document (parse
failure) degrades to a cold empty store with the error surfaced to the
caller instead of aborting construction. -/
def loadFromFile (deser : String → Option α)
    (parseDoc : String → Option PersistedDoc) (raw : Option String) :
    CacheStore α × Option PersistenceError :=
  match raw with
  | none => (CacheStore.empty, some .loadFailure)
  | some text =>
    match parseDoc text with
    | none => (CacheStore.empty, some .loadFailure)
    | some doc => (loadStore deser doc, none)

/-- Modelled from the spec (§4.3 flush): the durable file and the temporary
write location. -/
structure FileSystem where
  durable : Option String
  temp : Option String
deriving DecidableEq, Repr

/-- Modelled from the spec (§4.3 flush, glossary Atomic flush): the
filesystem states traversed while flushing rendered document `doc`:
initial, mid-write of the temporary file (`tempFragment` is the
crash-exposed partial content), temporary fully written, and after the
atomic rename into place. A crash can stop the sequence at any element. -/
def flushStates (fs : FileSystem) (doc : String) (tempFragment : String) :
    List FileSystem :=
  [fs,
   ⟨fs.durable, some tempFragment⟩,
   ⟨fs.durable, some doc⟩,
   ⟨some doc, none⟩]

/-- Modelled from the spec (§4.3 flush failure, §7 PersistenceError): a
flush attempt; on filesystem failure it reports `PersistenceError` and the
in-memory store passes through unchanged in every case. -/
def flushAttempt (ser : α → String) (renderDoc : PersistedDoc → String)
    (fsOk : Bool) (fs : FileSystem) (s : CacheStore α) :
    CacheStore α × FileSystem × Option PersistenceError :=
  if fsOk then (s, ⟨some (renderDoc (flushDoc ser s)), none⟩, none)
  else (s, fs, some .flushFailure)

/-- C7: persistence errors are recoverable and never corrupt state — a load
failure on unreadable or corrupt input yields the valid empty store with a
`PersistenceError` surfaced; a flush failure leaves the in-memory store
intact; and flush writes to a temporary location then renames into place,
so at every crash point the durable file is either the old content or the
complete new document, never a partial write. -/
theorem c7_persistence_error_recovery (deser : String → Option α)
    (parseDoc : String → Option PersistedDoc) (raw : Option String)
    (ser : α → String) (renderDoc : PersistedDoc → String) (fsOk : Bool)
    (fs : FileSystem) (s : CacheStore α) (doc tempFragment : String)
    (hbad : raw = none ∨ ∃ text, raw = some text ∧ parseDoc text = none) :
    (loadFromFile deser parseDoc raw =
      (CacheStore.empty, some .loadFailure)) ∧
    ((flushAttempt ser renderDoc fsOk fs s).1 = s) ∧
    (fsOk = false →
      flushAttempt ser renderDoc fsOk fs s = (s, fs, some .flushFailure)) ∧
    (∀ st ∈ flushStates fs doc tempFragment,
      st.durable = fs.durable ∨ st.durable = some doc) := by
  refine ⟨?_, ?_, ?_, ?_⟩
  · rcases hbad with rfl | ⟨text, rfl, hparse⟩
    · rfl
    · simp [loadFromFile, hparse]
  · cases fsOk <;> rfl
  · intro hf
    subst hf
    rfl
  · intro st hst
    simp only [flushStates, List.mem_cons, List.not_mem_nil, or_false] at hst
    rcases hst with rfl | rfl | rfl | rfl
    · exact Or.inl rfl
    · exact Or.inl rfl
    · exact Or.inl rfl
    · exact Or.inr rfl

/-- Witness for C7 with an unreadable file, a failing filesystem, and a
concrete one-entry store. -/
theorem c7_persistence_error_recovery_witness :
    (loadFromFile (α := String) some (fun _ => none) none =
      (CacheStore.empty, some .loadFailure)) ∧
    ((flushAttempt id (fun _ => "rendered") false ⟨some "old", none⟩
        (⟨[([("a", "x")], ⟨.ok "v", 3⟩)]⟩ : CacheStore String)).1 =
      (⟨[([("a", "x")], ⟨.ok "v", 3⟩)]⟩ : CacheStore String)) ∧
    (false = false →
      flushAttempt id (fun _ => "rendered") false ⟨some "old", none⟩
          (⟨[([("a", "x")], ⟨.ok "v", 3⟩)]⟩ : CacheStore String) =
        (⟨[([("a", "x")], ⟨.ok "v", 3⟩)]⟩, ⟨some "old", none⟩,
          some .flushFailure)) ∧
    (∀ st ∈ flushStates ⟨some "old", none⟩ "new" "parti",
      st.durable = (⟨some "old", none⟩ : FileSystem).durable ∨
        st.durable = some "new") :=
  c7_persistence_error_recovery some (fun _ => none) none id
    (fun _ => "rendered") false ⟨some "old", none⟩
    ⟨[([("a", "x")], ⟨.ok "v", 3⟩)]⟩ "new" "parti" (Or.inl rfl)

/-- Modelled from the spec (§6 configuration surface): the engine's
construction interface takes exactly three explicit, named settings — cache
file path, precomputation concurrency limit, and miss policy — with no
defaulted field: constructing a `CachexConfig` requires all three. -/
structure CachexConfig where
  cache_file_path : String
  concurrency_limit : Nat
  miss_policy : MissPolicy
deriving DecidableEq, Repr

/-- C8: all three cache-semantics settings — cache file path, concurrency
limit, and miss policy (strict-fail vs lazy-fill) — are explicit named
settings of the engine's construction interface: each choice of the three
determines exactly one configuration, and a configuration carries nothing
else, so no implicit default can silently select cache semantics. -/
theorem c8_explicit_configuration (p : String) (n : Nat) (m : MissPolicy) :
    ∃! cfg : CachexConfig, cfg.cache_file_path = p ∧
      cfg.concurrency_limit = n ∧ cfg.miss_policy = m := by
  refine ⟨⟨p, n, m⟩, ⟨rfl, rfl, rfl⟩, ?_⟩
  intro c hc
  obtain ⟨h1, h2, h3⟩ := hc
  cases c
  simp_all
